import Mathlib

/-!
Verification of the rating-and-ranking engine of `rank_llms`.

The Python sources are shallowly embedded as follows:
* floating-point arithmetic is modelled by exact arithmetic (`ℝ` for the ELO
  system, whose expected score uses a real power `10 ^ x`; `ℚ` for the
  Bradley-Terry, direct-comparison, focus-ranking and analyzer components,
  whose arithmetic is rational);
* Python dicts are modelled either as total functions with an `Option`
  codomain or as insertion-ordered association lists, matching dict
  iteration order where the source iterates;
* the on-disk archive of comparison results is modelled as an abstract store
  keyed by the canonically sorted model pair, exactly as
  `get_comparison_file_path` sorts the two model names;
* Python's stable `list.sort`/`sorted` is modelled by `List.insertionSort`,
  which is stable, hence produces the same list as any stable sort for the
  same key.
-/

namespace RankLlms

/-! ## String ordering (Python `sorted` on model-name strings)

Python compares strings lexicographically by code point.  Core `String.le`
does not reduce in the kernel, so we use an equivalent character-list
comparison. -/

/-- Lexicographic strict comparison of character lists by code point,
mirroring Python string `<`. -/
def charListLt : List Char → List Char → Bool
  | [], [] => false
  | [], _ :: _ => true
  | _ :: _, [] => false
  | a :: as, b :: bs =>
    if a.toNat < b.toNat then true
    else if b.toNat < a.toNat then false
    else charListLt as bs

/-- Python `a < b` on strings. -/
def strLt (a b : String) : Bool := charListLt a.data b.data

/-- Python `tuple(sorted([a, b]))`: the canonically ordered unordered pair. -/
def sortPair (a b : String) : String × String := if strLt b a then (b, a) else (a, b)

/-! ## ELO rating system (`src/rank_llms/elo.py`) -/

namespace Elo

/-- Default K-factor (`DEFAULT_K = 32`). -/
def DEFAULT_K : ℝ := 32

/-- Default starting rating (`DEFAULT_STARTING_ELO = 1400`). -/
def DEFAULT_STARTING_ELO : ℝ := 1400

/-- One entry of `match_history` as appended by `update_ratings`. -/
structure MatchRecord where
  model_a : String
  model_b : String
  old_rating_a : ℝ
  old_rating_b : ℝ
  new_rating_a : ℝ
  new_rating_b : ℝ
  score_a : ℝ
  category : Option String

/-- The mutable state of `EloRatingSystem`: the `ratings` dict is a partial
map from model name to rating. -/
structure EloRatingSystem where
  k_factor : ℝ
  starting_elo : ℝ
  promptset : String
  ratings : String → Option ℝ
  match_history : List MatchRecord

/-- The `__init__` constructor: empty ratings and history. -/
def mkElo (k_factor starting_elo : ℝ) (promptset : String) : EloRatingSystem :=
  ⟨k_factor, starting_elo, promptset, fun _ => none, []⟩

/-- `get_rating`: the stored rating, or `starting_elo` for unrated models. -/
def get_rating (st : EloRatingSystem) (model : String) : ℝ :=
  (st.ratings model).getD st.starting_elo

/-- `expected_score(model_a, model_b) = 1 / (1 + 10 ** ((rating_b - rating_a) / 400))`. -/
noncomputable def expected_score (st : EloRatingSystem) (model_a model_b : String) : ℝ :=
  1 / (1 + (10 : ℝ) ^ ((get_rating st model_b - get_rating st model_a) / 400))

/-- The `MatchRecord` that `update_ratings` appends for a given score. -/
noncomputable def matchRecord (st : EloRatingSystem) (model_a model_b : String)
    (score_a : ℝ) (category : Option String) : MatchRecord :=
  let rating_a := get_rating st model_a
  let rating_b := get_rating st model_b
  let expected_a := expected_score st model_a model_b
  let expected_b := 1 - expected_a
  { model_a := model_a
    model_b := model_b
    old_rating_a := rating_a
    old_rating_b := rating_b
    new_rating_a := rating_a + st.k_factor * (score_a - expected_a)
    new_rating_b := rating_b + st.k_factor * ((1 - score_a) - expected_b)
    score_a := score_a
    category := category }

/-- `update_ratings`: writes `ratings[model_a]` then `ratings[model_b]` and
appends one `MatchRecord`; returns the new state together with
`(new_rating_a, new_rating_b)`. -/
noncomputable def update_ratings (st : EloRatingSystem) (model_a model_b : String)
    (score_a : ℝ) (category : Option String) : EloRatingSystem × ℝ × ℝ :=
  let rec' := matchRecord st model_a model_b score_a category
  (⟨st.k_factor, st.starting_elo, st.promptset,
    fun m => if m = model_b then some rec'.new_rating_b
      else if m = model_a then some rec'.new_rating_a
      else st.ratings m,
    st.match_history ++ [rec']⟩,
   rec'.new_rating_a, rec'.new_rating_b)

/-- `register_match_result`: no-op when `wins_a + wins_b + draws == 0`,
otherwise one `update_ratings` call with the aggregate score
`(wins_a + 0.5 * draws) / total`. -/
noncomputable def register_match_result (st : EloRatingSystem) (model_a model_b : String)
    (wins_a wins_b draws : ℕ) (category : Option String) : EloRatingSystem :=
  if wins_a + wins_b + draws = 0 then st
  else
    (update_ratings st model_a model_b
      (((wins_a : ℝ) + (1 / 2) * draws) / ((wins_a : ℕ) + wins_b + draws : ℕ))
      category).1

/-- The persisted file content seen by `load_ratings`: each field models a
`data.get(...)` that may be absent. -/
structure SavedData where
  ratings : Option (String → Option ℝ)
  k_factor : Option ℝ
  starting_elo : Option ℝ
  promptset : Option String
  match_history : Option (List MatchRecord)

/-- The three outcomes of reading the ratings file: the path does not exist,
the open/parse step raises, or it parses to a data dict. -/
inductive RatingsFile where
  | absent : RatingsFile
  | unreadable : RatingsFile
  | parsed : SavedData → RatingsFile

/-- `load_ratings`: a missing file yields a fresh system with the
caller-supplied promptset; a file whose load raises yields `cls()` with all
defaults; a parsed file fills every field with its `data.get` fallback. -/
def load_ratings (file : RatingsFile) (promptset : String) : EloRatingSystem :=
  match file with
  | .absent => mkElo DEFAULT_K DEFAULT_STARTING_ELO promptset
  | .unreadable => mkElo DEFAULT_K DEFAULT_STARTING_ELO "basic1"
  | .parsed data =>
    { k_factor := data.k_factor.getD DEFAULT_K
      starting_elo := data.starting_elo.getD DEFAULT_STARTING_ELO
      promptset := data.promptset.getD promptset
      ratings := data.ratings.getD (fun _ => none)
      match_history := data.match_history.getD [] }

/-- A concrete fresh system used by witnesses. -/
def freshSystem : EloRatingSystem := mkElo DEFAULT_K DEFAULT_STARTING_ELO "basic1"

end Elo

/-! ## Bradley-Terry estimator (`src/rank_llms/bradley_terry.py`)

`fit` works on a square win matrix indexed by the model list; we index by
`Fin n` and keep the win counts as naturals (the matrix is built from
integer win counts by `build_win_matrix`).  The float arithmetic of the
iteration is modelled exactly over `ℚ`. -/

namespace BradleyTerry

variable {n : ℕ}

/-- `win_matrix.iloc[i, j] + win_matrix.iloc[j, i]`, the matches of the pair. -/
def pairMatches (W : Fin n → Fin n → ℕ) (i j : Fin n) : ℕ := W i j + W j i

/-- Total number of comparisons involving model `i` (off-diagonal row+column sum). -/
def totalComparisons (W : Fin n → Fin n → ℕ) (i : Fin n) : ℕ :=
  ∑ j, if i ≠ j then pairMatches W i j else 0

/-- `win_matrix.iloc[i, :].sum()`: total wins of model `i` (full row sum). -/
def rowWins (W : Fin n → Fin n → ℕ) (i : Fin n) : ℕ := ∑ j, W i j

/-- The MLE denominator `Σ_j pair_matches · strength_j / (strength_i + strength_j)`,
skipping `j = i` and pairs with zero matches. -/
def denomSum (W : Fin n → Fin n → ℕ) (s : Fin n → ℚ) (i : Fin n) : ℚ :=
  ∑ j, if i ≠ j ∧ 0 < pairMatches W i j
    then (pairMatches W i j : ℚ) * s j / (s i + s j) else 0

/-- One per-model update of the sweep: keep the strength when the model has no
comparisons or the denominator vanishes, else `wins_i / denominator`. -/
def newStrengths (W : Fin n → Fin n → ℕ) (s : Fin n → ℚ) (i : Fin n) : ℚ :=
  if totalComparisons W i = 0 then s i
  else if 0 < denomSum W s i then (rowWins W i : ℚ) / denomSum W s i
  else s i

/-- `new_strengths / new_strengths.sum()`. -/
def normalize (t : Fin n → ℚ) : Fin n → ℚ := fun i => t i / ∑ j, t j

/-- One full sweep of the iteration followed by normalization. -/
def sweep (W : Fin n → Fin n → ℕ) (s : Fin n → ℚ) : Fin n → ℚ :=
  normalize (newStrengths W s)

/-- `np.max(np.abs(new_strengths - strengths)) < convergence_threshold`
(for a nonempty model list). -/
def Converged (thr : ℚ) (t s : Fin n → ℚ) : Prop := ∀ i, |t i - s i| < thr

instance (thr : ℚ) (t s : Fin n → ℚ) : Decidable (Converged thr t s) :=
  inferInstanceAs (Decidable (∀ i, |t i - s i| < thr))

/-- The `for _ in range(max_iterations)` loop: on convergence it breaks and
returns the strengths from before the sweep, otherwise it continues with the
normalized sweep; on fuel exhaustion it returns the last normalized sweep. -/
def fitLoop (W : Fin n → Fin n → ℕ) (thr : ℚ) : ℕ → (Fin n → ℚ) → (Fin n → ℚ)
  | 0, s => s
  | k + 1, s => if Converged thr (sweep W s) s then s else fitLoop W thr k (sweep W s)

/-- The initial strengths `np.ones(n) / n`. -/
def initStrengths (n : ℕ) : Fin n → ℚ := fun _ => 1 / n

/-- `BradleyTerryModel.fit` with iteration cap `maxIter` and convergence
threshold `thr` (the constructor defaults are `100` and `1e-6`). -/
def fit (maxIter : ℕ) (thr : ℚ) (W : Fin n → Fin n → ℕ) : Fin n → ℚ :=
  fitLoop W thr maxIter (initStrengths n)

/-- Default `max_iterations`. -/
def defaultMaxIterations : ℕ := 100

/-- Default `convergence_threshold = 1e-6`. -/
def defaultThreshold : ℚ := 1 / 1000000

/-- Counterexample matrix for C2: two models, `A` beats `B` once
(`[[0, 1], [0, 0]]`).  Model `B` has one match and zero wins. -/
def W2 : Fin 2 → Fin 2 → ℕ := fun i j => if i = 0 ∧ j = 1 then 1 else 0

/-- Counterexample matrix for C6: three models, `A` beats `B` once, `C` is
isolated (`[[0, 1, 0], [0, 0, 0], [0, 0, 0]]`). -/
def W3 : Fin 3 → Fin 3 → ℕ := fun i j => if i = 0 ∧ j = 1 then 1 else 0

/-- The loop invariant of the iteration: strengths are non-negative, sum to
one, and every model that has at least one win, or no comparisons at all,
has strictly positive strength. -/
def Good (W : Fin n → Fin n → ℕ) (s : Fin n → ℚ) : Prop :=
  (∀ i, 0 ≤ s i) ∧ (∑ i, s i = 1) ∧
    ∀ i, (0 < rowWins W i ∨ totalComparisons W i = 0) → 0 < s i

end BradleyTerry

/-! ## The outcome store (`src/rank_llms/compare.py`)

`load_comparison_result(model_a, model_b)` reads the file named by the
canonically sorted model pair, so loading is symmetric in its two arguments.
We model the archive as a map from sorted pairs to an optional stored
result.  A stored `ComparisonResult` is abstracted to its own `model_a`/
`model_b` fields plus the three overall aggregates `overall_wins_a`,
`overall_wins_b`, `overall_ties` (each a sum of non-negative per-category
counts, hence an arbitrary natural). -/

/-- A stored `ComparisonResult`, reduced to the fields the ranking engine
reads: the stored order of the two models and the overall aggregates. -/
structure ComparisonResult where
  model_a : String
  model_b : String
  overall_wins_a : ℕ
  overall_wins_b : ℕ
  overall_ties : ℕ
deriving DecidableEq

/-- `overall_total`. -/
def ComparisonResult.overall_total (r : ComparisonResult) : ℕ :=
  r.overall_wins_a + r.overall_wins_b + r.overall_ties

/-- The comparison archive, keyed by the sorted pair of model names. -/
def Store : Type := String × String → Option ComparisonResult

/-- `load_comparison_result(model_a, model_b)`: look up the file for the
sorted pair. -/
def load_comparison_result (store : Store) (model_a model_b : String) :
    Option ComparisonResult :=
  store (sortPair model_a model_b)

/-! ## Direct comparison ranking (`src/rank_llms/direct_comparison.py`) -/

namespace DirectComparison

/-- Pointwise update of a matrix stored as a function (`df.loc[a, b] = v`). -/
def setEntry (m : String → String → ℕ) (a b : String) (v : ℕ) :
    String → String → ℕ :=
  fun x y => if x = a ∧ y = b then v else m x y

/-- The mutable fields of `DirectComparisonRanking` filled by the load loop. -/
structure DCState where
  win_matrix : String → String → ℕ
  match_counts : String → String → ℕ
  missing_comparisons : List (String × String)

/-- The state at the top of `compute_rankings`: zero matrices, empty missing
list. -/
def initDCState : DCState :=
  ⟨fun _ _ => 0, fun _ _ => 0, []⟩

/-- The body of the double loop for one ordered pair `(model_a, model_b)`:
skip the diagonal; on a loaded result fill both orientations of the win and
match-count matrices; otherwise append the ordered pair to
`missing_comparisons`. -/
def dcStep (store : Store) (st : DCState) (p : String × String) : DCState :=
  if p.1 = p.2 then st
  else
    match load_comparison_result store p.1 p.2 with
    | some r =>
      let total := r.overall_wins_a + r.overall_wins_b + r.overall_ties
      { st with
        win_matrix := setEntry (setEntry st.win_matrix p.1 p.2 r.overall_wins_a)
          p.2 p.1 r.overall_wins_b
        match_counts := setEntry (setEntry st.match_counts p.1 p.2 total)
          p.2 p.1 total }
    | none =>
      { st with missing_comparisons := st.missing_comparisons ++ [p] }

/-- All ordered pairs visited by `for model_a in models: for model_b in models:`. -/
def orderedPairs (models : List String) : List (String × String) :=
  models.flatMap fun a => models.map fun b => (a, b)

/-- The win-probability entry for one ordered pair, as computed once the
completeness gate has passed: `0.5` on the diagonal, null for a pair with
zero matches, else `(wins_a + 0.5 * ties) / total_matches` with
`ties = total - wins_a - wins_b`. -/
def probEntry (st : DCState) (a b : String) : Option ℚ :=
  if a = b then some (1 / 2)
  else
    let total := st.match_counts a b
    if 0 < total then
      let wins_a := st.win_matrix a b
      let ties : ℚ := (total : ℚ) - wins_a - st.win_matrix b a
      some (((wins_a : ℚ) + (1 / 2) * ties) / total)
    else none

/-- The outcome of `compute_rankings`: the returned boolean, the filled
matrices and the probability matrix.  In the source the probability matrix
stays `None` when the gate fails; here `probability_matrix` is only
meaningful when `result = true` (it is the all-`none` function otherwise). -/
structure DCResult where
  result : Bool
  win_matrix : String → String → ℕ
  match_counts : String → String → ℕ
  missing_comparisons : List (String × String)
  probability_matrix : String → String → Option ℚ

/-- The state after the double load loop of `compute_rankings`. -/
def dcLoad (store : Store) (models : List String) : DCState :=
  (orderedPairs models).foldl (dcStep store) initDCState

/-- `DirectComparisonRanking.compute_rankings(models)` against an abstract
archive `store`. -/
def compute_rankings (store : Store) (models : List String) : DCResult :=
  if (dcLoad store models).missing_comparisons ≠ [] then
    { result := false
      win_matrix := (dcLoad store models).win_matrix
      match_counts := (dcLoad store models).match_counts
      missing_comparisons := (dcLoad store models).missing_comparisons
      probability_matrix := fun _ _ => none }
  else
    { result := true
      win_matrix := (dcLoad store models).win_matrix
      match_counts := (dcLoad store models).match_counts
      missing_comparisons := (dcLoad store models).missing_comparisons
      probability_matrix := probEntry (dcLoad store models) }

/-- The C7 scenario archive: `A` vs `B` = 7-3-0 and `B` vs `C` = 6-2-2
recorded, no `A` vs `C` outcome. -/
def scenarioStore : Store := fun p =>
  if p = ("A", "B") then some ⟨"A", "B", 7, 3, 0⟩
  else if p = ("B", "C") then some ⟨"B", "C", 6, 2, 2⟩
  else none

/-- The C3 counterexample archive: the single pair `A` vs `B` has a stored
result recording zero comparisons. -/
def zeroTotalStore : Store := fun p =>
  if p = ("A", "B") then some ⟨"A", "B", 0, 0, 0⟩ else none

/-- A small complete archive for the C3 witness: the one recorded pair has
ten comparisons. -/
def smallStore : Store := fun p =>
  if p = ("A", "B") then some ⟨"A", "B", 7, 3, 0⟩ else none

end DirectComparison

/-! ## Focus ranking (`src/rank_llms/focus_rank.py`)

Python dicts are modelled as insertion-ordered association lists so that
iteration order (`for neighbor in self.graph[current]`) is preserved.
`float('inf')`, used as the "focus never won" sentinel, is modelled by the
`FloatVal.inf` constructor. -/

/-- Lookup in an insertion-ordered dict. -/
def dlookup {κ α : Type} [DecidableEq κ] : List (κ × α) → κ → Option α
  | [], _ => none
  | e :: t, k => if e.1 = k then some e.2 else dlookup t k

/-- Write `d[k] = v` in an insertion-ordered dict: overwrite in place, or
append a new key at the end. -/
def dinsert {κ α : Type} [DecidableEq κ] : List (κ × α) → κ → α → List (κ × α)
  | [], k, v => [(k, v)]
  | e :: t, k, v => if e.1 = k then (k, v) :: t else e :: dinsert t k v

/-- A Python float that is either finite or the `float('inf')` sentinel. -/
inductive FloatVal where
  | inf : FloatVal
  | val : ℚ → FloatVal
deriving DecidableEq

namespace FocusRank

/-- One comparison file as seen by `_load_all_comparisons`: the two model
names parsed from the filename, and the result of loading the file. -/
structure FocusEntry where
  model_a : String
  model_b : String
  result : Option ComparisonResult

/-- The nested dict `self.graph`: win-ratio edges between models. -/
def Graph : Type := List (String × List (String × ℚ))

/-- `self.graph[u][v] = w` on the nested dict. -/
def graphAdd (g : Graph) (u v : String) (w : ℚ) : Graph :=
  dinsert g u (dinsert ((dlookup g u).getD []) v w)

/-- `self.graph[u]`, an empty dict for unseen `u` (defaultdict). -/
def neighborsOf (g : Graph) (u : String) : List (String × ℚ) :=
  (dlookup g u).getD []

/-- `self.graph[u][v]`; the source would raise `KeyError` on a missing edge,
which is unreachable along BFS paths, so the default value is irrelevant. -/
def edgeWeight (g : Graph) (u v : String) : ℚ :=
  (dlookup (neighborsOf g u) v).getD 0

/-- The state built by `_load_all_comparisons`. -/
structure FocusState where
  models : List String
  comparisons : List ((String × String) × ComparisonResult)
  graph : Graph

/-- `set.add`: insertion-ordered set insertion. -/
def addModel (l : List String) (m : String) : List String :=
  if m ∈ l then l else l ++ [m]

/-- The graph edges contributed by one loaded comparison: two win-ratio
edges, each guarded by a non-zero denominator win rate (the source's three
nested `if`s assign only graph entries, so they are gathered here). -/
def entryGraph (g : Graph) (model_a model_b : String) (r : ComparisonResult) : Graph :=
  let total := r.overall_total
  if 0 < total then
    let wins_a : ℚ := r.overall_wins_a + (1 / 2) * r.overall_ties
    let wins_b : ℚ := r.overall_wins_b + (1 / 2) * r.overall_ties
    let win_rate_a := wins_a / total
    let win_rate_b := wins_b / total
    let g1 : Graph :=
      if 0 < win_rate_a then graphAdd g model_b model_a (win_rate_b / win_rate_a)
      else g
    if 0 < win_rate_b then graphAdd g1 model_a model_b (win_rate_a / win_rate_b)
    else g1
  else g

/-- Processing of one comparison file: record both models, store the result
under the sorted pair key, and add the win-ratio edges. -/
def loadEntry (st : FocusState) (e : FocusEntry) : FocusState :=
  match e.result with
  | none =>
    { models := addModel (addModel st.models e.model_a) e.model_b
      comparisons := st.comparisons
      graph := st.graph }
  | some r =>
    { models := addModel (addModel st.models e.model_a) e.model_b
      comparisons := dinsert st.comparisons (sortPair e.model_a e.model_b) r
      graph := entryGraph st.graph e.model_a e.model_b r }

/-- `_load_all_comparisons` over the list of comparison files. -/
def loadAll (entries : List FocusEntry) : FocusState :=
  entries.foldl loadEntry ⟨[], [], []⟩

/-- The `(focus_wins, other_wins)` pair read off a stored result, oriented
by whether the stored `model_a` is the focus model (ties count half to each
side). -/
def focusOtherWins (r : ComparisonResult) (focus : String) : ℚ × ℚ :=
  if r.model_a = focus then
    (r.overall_wins_a + (1 / 2) * r.overall_ties,
     r.overall_wins_b + (1 / 2) * r.overall_ties)
  else
    (r.overall_wins_b + (1 / 2) * r.overall_ties,
     r.overall_wins_a + (1 / 2) * r.overall_ties)

/-- The body of the `_compute_direct_ratios` loop for one model `m`: skip
the focus model, skip models without a stored comparison against the focus
model, and otherwise record `other_wins / focus_wins` (or `inf` when the
focus side's win count is zero). -/
def directStep (comparisons : List ((String × String) × ComparisonResult))
    (focus : String) (acc : List (String × FloatVal)) (m : String) :
    List (String × FloatVal) :=
  if m = focus then acc
  else
    match dlookup comparisons (sortPair focus m) with
    | none => acc
    | some r =>
      if 0 < (focusOtherWins r focus).1 then
        dinsert acc m (.val ((focusOtherWins r focus).2 / (focusOtherWins r focus).1))
      else dinsert acc m .inf

/-- The body of `_compute_direct_ratios`, over the model set and the stored
comparison dict. -/
def direct_ratios_from (models : List String)
    (comparisons : List ((String × String) × ComparisonResult))
    (focus : String) : List (String × FloatVal) :=
  models.foldl (directStep comparisons focus) []

/-- `_compute_direct_ratios`: for every model with a stored comparison
against the focus model, the ratio `other_wins / focus_wins` (ties counted
half to each side), or `inf` when the focus model's win count is zero. -/
def direct_ratios (st : FocusState) (focus : String) : List (String × FloatVal) :=
  direct_ratios_from st.models st.comparisons focus

/-- One BFS node expansion: visit every unvisited neighbor, appending it to
the next queue, the visited set and the paths dict. -/
def processNode (g : Graph)
    (acc : List String × List String × List (String × List String))
    (current : String) :
    List String × List String × List (String × List String) :=
  (neighborsOf g current).foldl
    (fun acc2 nb =>
      if nb.1 ∈ acc2.2.1 then acc2
      else
        (acc2.1 ++ [nb.1], acc2.2.1 ++ [nb.1],
         acc2.2.2 ++ [(nb.1, ((dlookup acc2.2.2 current).getD []) ++ [nb.1])]))
    acc

/-- One BFS level (`for _ in range(level_size)`). -/
def processLevel (g : Graph) (queue visited : List String)
    (paths : List (String × List String)) :
    List String × List String × List (String × List String) :=
  queue.foldl (processNode g) ([], visited, paths)

/-- The `while queue and depth < max_depth` loop of `_find_paths`. -/
def findPathsLoop (g : Graph) :
    ℕ → List String → List String → List (String × List String) →
    List (String × List String)
  | 0, _, _, paths => paths
  | d + 1, queue, visited, paths =>
    if queue = [] then paths
    else
      let next := processLevel g queue visited paths
      findPathsLoop g d next.1 next.2.1 next.2.2

/-- `_find_paths(start, max_depth)`: BFS shortest paths from the focus model. -/
def find_paths (g : Graph) (start : String) (max_depth : ℕ) :
    List (String × List String) :=
  findPathsLoop g max_depth [start] [start] [(start, [start])]

/-- The product of edge weights along a path (`ratio *= graph[u][v]`). -/
def pathProduct (g : Graph) : List String → ℚ
  | u :: v :: rest => edgeWeight g u v * pathProduct g (v :: rest)
  | _ => 1

/-- `_compute_transitive_ratios`: a composed ratio for every model reached by
BFS that has no direct ratio and is not the focus model. -/
def transitive_ratios (st : FocusState) (focus : String) (max_depth : ℕ)
    (direct : List (String × FloatVal)) : List (String × ℚ) :=
  (find_paths st.graph focus max_depth).foldl
    (fun acc mp =>
      if dlookup direct mp.1 = none ∧ mp.1 ≠ focus then
        dinsert acc mp.1 (pathProduct st.graph mp.2)
      else acc) []

/-- The body of the `all_ratios` merge loop: add a transitive ratio only for
a model with no direct ratio. -/
def mergeStep (direct : List (String × FloatVal))
    (acc : List (String × FloatVal)) (mr : String × ℚ) :
    List (String × FloatVal) :=
  if dlookup direct mr.1 = none then dinsert acc mr.1 (.val mr.2) else acc

/-- The assembly step of `compute_rankings` on a loaded state: empty when
the focus model appears in no comparison file; otherwise the direct ratios,
extended with transitive ratios for models without a direct ratio, with the
focus model itself fixed at `1.0`. -/
def assembleRatios (st : FocusState) (focus : String) (max_depth : ℕ) :
    List (String × FloatVal) :=
  if focus ∉ st.models then []
  else
    dinsert
      ((if 1 < max_depth then
          transitive_ratios st focus max_depth (direct_ratios st focus)
        else []).foldl (mergeStep (direct_ratios st focus))
        (direct_ratios st focus))
      focus (.val 1)

/-- `FocusRanking.compute_rankings(promptset, max_depth)`. -/
def compute_rankings (entries : List FocusEntry) (focus : String)
    (max_depth : ℕ) : List (String × FloatVal) :=
  assembleRatios (loadAll entries) focus max_depth

/-- The comparison files of the C4 witness scenario: `A` vs `B` = 7-3-0 and
`B` vs `C` = 6-2-2. -/
def scenarioEntries : List FocusEntry :=
  [⟨"A", "B", some ⟨"A", "B", 7, 3, 0⟩⟩, ⟨"B", "C", some ⟨"B", "C", 6, 2, 2⟩⟩]

end FocusRank

/-! ## Confidence / gap analyzer (`src/rank_llms/analyzer.py`)

`ConfidenceAnalyzer` aggregates the archive into `self.models` (a set),
`self.comparisons` (a dict from sorted model pair to total comparison
count), `self.category_comparisons` (per-category pair counts) and an
optional ELO store.  `generate_suggestions` only reads those aggregates, so
the embedding takes them as the input corpus.  Python's stable `sorted` and
`list.sort` are modelled by the stable `List.insertionSort`. -/

namespace Analyzer

/-- One suggestion dict produced by `generate_suggestions`. -/
structure Suggestion where
  model_a : String
  model_b : String
  reason : String
  priority : ℕ
  category : Option String
  promptset : String
deriving DecidableEq

/-- The sort key of `suggestions.sort(key=lambda x: x["priority"])`. -/
def priLe (s t : Suggestion) : Prop := s.priority ≤ t.priority

instance : DecidableRel priLe := fun s t => Nat.decLe s.priority t.priority

instance : IsTotal Suggestion priLe := ⟨fun s t => Nat.le_total s.priority t.priority⟩

instance : IsTrans Suggestion priLe := ⟨fun _ _ _ h h2 => Nat.le_trans h h2⟩

/-- Python string `a <= b` (used through stable sorting of model names). -/
def strLe (a b : String) : Prop := strLt b a = false

instance : DecidableRel strLe := fun a b => instDecidableEqBool (strLt b a) false

/-- Python `sorted(models)`: a stable sort of the model names. -/
def sortStrings (l : List String) : List String := l.insertionSort strLe

/-- `itertools.combinations(l, 2)` in iteration order. -/
def combinations {α : Type} : List α → List (α × α)
  | [] => []
  | x :: t => (t.map fun y => (x, y)) ++ combinations t

/-- The aggregates of `ConfidenceAnalyzer` that `generate_suggestions`
reads: the model set, the pair-to-count dict, the per-category pair counts
and the optional ELO rating store (abstracted to its `get_rating` map). -/
structure AnalyzerData where
  models : List String
  comparisons : List ((String × String) × ℕ)
  category_comparisons : String → (String × String) → ℕ
  elo_ratings : Option (String → ℚ)
  promptset : String

/-- Modelled from the spec: `get_prompt_categories(promptset_name)` of the
promptset-aware `prompts.py` is missing from `src/` — the checked-in
`src/rank_llms/prompts.py` is an older revision that takes no argument and
lacks `load_promptset`, which `analyzer.py`, `main.py` and
`test_promptset.py` import.  The spec describes a promptset as "a named
corpus of categorized prompts", so the categories of a promptset are
modelled as an abstract assignment `categoriesOf` from promptset name to
its category names. -/
def get_prompt_categories (categoriesOf : String → List String)
    (promptset : String) : List String :=
  categoriesOf promptset

/-- `get_missing_comparisons`: all unordered pairs of known models with no
recorded comparisons. -/
def get_missing_comparisons (d : AnalyzerData) : List (String × String) :=
  (combinations (sortStrings d.models)).filter
    fun p => (dlookup d.comparisons p).isNone

/-- `get_low_confidence_pairs`: recorded pairs with fewer than
`min_comparisons` comparisons, sorted ascending by count. -/
def get_low_confidence_pairs (d : AnalyzerData) (min_comparisons : ℕ) :
    List (String × String × ℕ) :=
  List.insertionSort (fun x y => x.2.2 ≤ y.2.2)
    ((d.comparisons.filter fun e => e.2 < min_comparisons).map
      fun e => (e.1.1, e.1.2, e.2))

/-- `get_close_rating_pairs`: pairs of known models whose ELO ratings differ
by at most `max_diff`, sorted ascending by difference; empty without an ELO
store. -/
def get_close_rating_pairs (d : AnalyzerData) (max_diff : ℚ) :
    List (String × String × ℚ) :=
  match d.elo_ratings with
  | none => []
  | some rating =>
    List.insertionSort (fun x y => x.2.2 ≤ y.2.2)
      (((combinations (sortStrings d.models)).map
        fun p => (p.1, p.2, |rating p.1 - rating p.2|)).filter
        fun x => x.2.2 ≤ max_diff)

/-- `get_category_gaps`: per category (in promptset order), the recorded
pairs with fewer than `min_per_category` comparisons in that category,
sorted ascending by count. -/
def get_category_gaps (d : AnalyzerData) (categoriesOf : String → List String)
    (min_per_category : ℕ) : List (String × List (String × String × ℕ)) :=
  (get_prompt_categories categoriesOf d.promptset).map fun c =>
    (c, List.insertionSort (fun x y => x.2.2 ≤ y.2.2)
      ((d.comparisons.map fun e => (e.1.1, e.1.2, d.category_comparisons c e.1)).filter
        fun x => x.2.2 < min_per_category))

/-- The dedup guard of `generate_suggestions`: the candidate pair already
occurs among the suggestions collected so far, in either orientation. -/
def pairAlreadySuggested (acc : List Suggestion) (a b : String) : Prop :=
  (∃ s ∈ acc, s.model_a = a ∧ s.model_b = b) ∨
    (∃ s ∈ acc, s.model_a = b ∧ s.model_b = a)

instance (acc : List Suggestion) (a b : String) :
    Decidable (pairAlreadySuggested acc a b) :=
  inferInstanceAs (Decidable (_ ∨ _))

/-- Append a suggestion unless its unordered pair was already suggested. -/
def addWithGuard (acc : List Suggestion) (s : Suggestion) : List Suggestion :=
  if pairAlreadySuggested acc s.model_a s.model_b then acc else acc ++ [s]

/-- Block 1 of `generate_suggestions`: missing comparisons (priority 1),
appended without a guard. -/
def suggestions1 (d : AnalyzerData) (max_suggestions : ℕ) : List Suggestion :=
  ((get_missing_comparisons d).take max_suggestions).map fun p =>
    { model_a := p.1, model_b := p.2,
      reason := "These models have never been compared",
      priority := 1, category := none, promptset := d.promptset : Suggestion }

/-- Block 2: low-confidence pairs (priority 2), each guarded against pairs
already suggested. -/
def suggestions2 (d : AnalyzerData) (min_comparisons max_suggestions : ℕ) :
    List Suggestion :=
  ((get_low_confidence_pairs d min_comparisons).take max_suggestions).foldl
    (fun acc x => addWithGuard acc
      { model_a := x.1, model_b := x.2.1,
        reason := "Only " ++ toString x.2.2 ++ " comparisons (recommended: " ++
          toString min_comparisons ++ ")",
        priority := 2, category := none, promptset := d.promptset })
    (suggestions1 d max_suggestions)

/-- Block 3: close-rating pairs (priority 3), skipped without an ELO store. -/
def suggestions3 (d : AnalyzerData) (min_comparisons : ℕ)
    (max_rating_diff : ℚ) (max_suggestions : ℕ) : List Suggestion :=
  match d.elo_ratings with
  | none => suggestions2 d min_comparisons max_suggestions
  | some _ =>
    ((get_close_rating_pairs d max_rating_diff).take max_suggestions).foldl
      (fun acc x => addWithGuard acc
        { model_a := x.1, model_b := x.2.1,
          reason := "Close ELO ratings (diff: " ++ toString x.2.2 ++ ")",
          priority := 3, category := none, promptset := d.promptset })
      (suggestions2 d min_comparisons max_suggestions)

/-- Block 4: per-category gaps (priority 4), each category capped at
`max_suggestions // number_of_categories`. -/
def suggestions4 (d : AnalyzerData) (categoriesOf : String → List String)
    (min_comparisons min_per_category : ℕ) (max_rating_diff : ℚ)
    (max_suggestions : ℕ) : List Suggestion :=
  (get_category_gaps d categoriesOf min_per_category).foldl
    (fun acc cg =>
      (cg.2.take (max_suggestions /
          (get_category_gaps d categoriesOf min_per_category).length)).foldl
        (fun acc2 x => addWithGuard acc2
          { model_a := x.1, model_b := x.2.1,
            reason := "Only " ++ toString x.2.2 ++ " comparisons in " ++
              cg.1 ++ " category",
            priority := 4, category := some cg.1, promptset := d.promptset }) acc)
    (suggestions3 d min_comparisons max_rating_diff max_suggestions)

/-- `ConfidenceAnalyzer.generate_suggestions`: the four priority blocks
merged with the unordered-pair dedup guard, sorted by priority (stable) and
capped at `max_suggestions`. -/
def generate_suggestions (d : AnalyzerData) (categoriesOf : String → List String)
    (min_comparisons min_per_category : ℕ) (max_rating_diff : ℚ)
    (max_suggestions : ℕ) : List Suggestion :=
  (List.insertionSort priLe
    (suggestions4 d categoriesOf min_comparisons min_per_category
      max_rating_diff max_suggestions)).take max_suggestions

/-- Two suggestions name different unordered model pairs. -/
def DistinctPair (s t : Suggestion) : Prop :=
  ¬ ((s.model_a = t.model_a ∧ s.model_b = t.model_b) ∨
     (s.model_a = t.model_b ∧ s.model_b = t.model_a))

/-- Two ordered pairs are different as unordered pairs. -/
def PairNe {α : Type} (p q : α × α) : Prop :=
  ¬ ((p.1 = q.1 ∧ p.2 = q.2) ∨ (p.1 = q.2 ∧ p.2 = q.1))

/-- A small concrete corpus for the C5 witness: two models compared three
times, no ELO store, one category. -/
def witnessData : AnalyzerData :=
  { models := ["llama3", "gemma"]
    comparisons := [(("gemma", "llama3"), 3)]
    category_comparisons := fun _ _ => 1
    elo_ratings := none
    promptset := "basic1" }

/-- The category assignment used by the C5 witness. -/
def witnessCategoriesOf : String → List String := fun _ => ["Programming"]

end Analyzer

/-! ## Theorems -/

/-- C8: for every rating state of an `EloRatingSystem` (including unrated
models at the default rating) and every pair of models `a`, `b`,
`expected_score(a, b) + expected_score(b, a) = 1`. -/
theorem expected_score_symmetry (st : Elo.EloRatingSystem) (a b : String) :
    Elo.expected_score st a b + Elo.expected_score st b a = 1 := by
  unfold Elo.expected_score
  set x : ℝ := (Elo.get_rating st b - Elo.get_rating st a) / 400 with hx
  have hswap : (Elo.get_rating st a - Elo.get_rating st b) / 400 = -x := by
    rw [hx]; ring
  rw [hswap, Real.rpow_neg (by norm_num : (0 : ℝ) ≤ 10)]
  have ht : (0 : ℝ) < (10 : ℝ) ^ x := Real.rpow_pos_of_pos (by norm_num) x
  have h1 : (1 : ℝ) + (10 : ℝ) ^ x ≠ 0 := by positivity
  field_simp
  ring

/-- C1: every `register_match_result` call with `wins_a + wins_b + draws > 0`
appends exactly one `MatchRecord`, and on that record the rating change of
`model_a` is exactly the negation of the rating change of `model_b`:
`new_rating_a - old_rating_a = -(new_rating_b - old_rating_b)`. -/
theorem register_match_result_zero_sum (st : Elo.EloRatingSystem)
    (a b : String) (wa wb d : ℕ) (cat : Option String)
    (h : 0 < wa + wb + d) :
    ∃ rec : Elo.MatchRecord,
      (Elo.register_match_result st a b wa wb d cat).match_history =
        st.match_history ++ [rec] ∧
      rec.new_rating_a - rec.old_rating_a =
        -(rec.new_rating_b - rec.old_rating_b) := by
  refine ⟨Elo.matchRecord st a b
    (((wa : ℝ) + (1 / 2) * d) / ((wa : ℕ) + wb + d : ℕ)) cat, ?_, ?_⟩
  · unfold Elo.register_match_result
    rw [if_neg (Nat.pos_iff_ne_zero.mp h)]
    rfl
  · simp only [Elo.matchRecord]
    ring

/-- Witness for C1 at a concrete input: a fresh system and a 10-0-0 result. -/
theorem register_match_result_zero_sum_witness :
    0 < 10 + 0 + 0 ∧
    ∃ rec : Elo.MatchRecord,
      (Elo.register_match_result Elo.freshSystem "modelA" "modelB" 10 0 0
        none).match_history = Elo.freshSystem.match_history ++ [rec] ∧
      rec.new_rating_a - rec.old_rating_a =
        -(rec.new_rating_b - rec.old_rating_b) :=
  ⟨by norm_num,
   register_match_result_zero_sum Elo.freshSystem "modelA" "modelB" 10 0 0
     none (by norm_num)⟩

/-- C9: a `register_match_result` call with `wins_a + wins_b + draws = 0` is
a total no-op: the returned state (ratings and match history included)
equals the input state, and being a total function it raises nothing. -/
theorem register_match_result_noop (st : Elo.EloRatingSystem)
    (a b : String) (wa wb d : ℕ) (cat : Option String)
    (h : wa + wb + d = 0) :
    Elo.register_match_result st a b wa wb d cat = st := by
  unfold Elo.register_match_result
  rw [if_pos h]

/-- Witness for C9 at a concrete input: a 0-0-0 result on a fresh system. -/
theorem register_match_result_noop_witness :
    (0 + 0 + 0 = 0) ∧
    Elo.register_match_result Elo.freshSystem "modelA" "modelB" 0 0 0 none =
      Elo.freshSystem :=
  ⟨rfl, register_match_result_noop Elo.freshSystem "modelA" "modelB" 0 0 0
    none rfl⟩

/-- C10: `load_ratings` never raises (it is total), and its two fallback
paths differ exactly as claimed: a missing file yields a fresh system that
keeps the caller-supplied promptset, while a file that exists but fails to
load yields a fresh system with promptset `"basic1"`, the default K-factor
`32` and the default starting rating `1400`, discarding the caller-supplied
promptset. -/
theorem load_ratings_fallback_paths (ps : String) :
    Elo.load_ratings Elo.RatingsFile.absent ps = Elo.mkElo 32 1400 ps ∧
    Elo.load_ratings Elo.RatingsFile.unreadable ps =
      Elo.mkElo 32 1400 "basic1" :=
  ⟨rfl, rfl⟩

/-! ### Bradley-Terry lemmas -/

namespace BradleyTerry

variable {n : ℕ}

lemma denomSum_nonneg (W : Fin n → Fin n → ℕ) (s : Fin n → ℚ)
    (hs : ∀ i, 0 ≤ s i) (i : Fin n) : 0 ≤ denomSum W s i := by
  unfold denomSum
  refine Finset.sum_nonneg fun j _ => ?_
  split
  · exact div_nonneg (mul_nonneg (Nat.cast_nonneg _) (hs j))
      (add_nonneg (hs i) (hs j))
  · exact le_refl 0

lemma newStrengths_nonneg (W : Fin n → Fin n → ℕ) (s : Fin n → ℚ)
    (hs : ∀ i, 0 ≤ s i) (i : Fin n) : 0 ≤ newStrengths W s i := by
  unfold newStrengths
  split
  · exact hs i
  · split
    · next h => exact div_nonneg (Nat.cast_nonneg _) (le_of_lt h)
    · exact hs i

lemma newStrengths_pos (W : Fin n → Fin n → ℕ) (s : Fin n → ℚ)
    (hgood : Good W s) (i : Fin n)
    (hi : 0 < rowWins W i ∨ totalComparisons W i = 0) :
    0 < newStrengths W s i := by
  unfold newStrengths
  split
  · next h => exact hgood.2.2 i (Or.inr h)
  · next h =>
    rcases hi with hw | htc
    · split
      · next hd => exact div_pos (by exact_mod_cast hw) hd
      · exact hgood.2.2 i (Or.inl hw)
    · exact absurd htc h

lemma exists_newStrengths_pos (W : Fin n → Fin n → ℕ) (s : Fin n → ℚ)
    (hn : 0 < n) (hgood : Good W s) : ∃ i, 0 < newStrengths W s i := by
  by_cases h : ∃ i, totalComparisons W i = 0
  · obtain ⟨i, hi⟩ := h
    exact ⟨i, newStrengths_pos W s hgood i (Or.inr hi)⟩
  · push_neg at h
    set i0 : Fin n := ⟨0, hn⟩
    have h0 : totalComparisons W i0 ≠ 0 := h i0
    obtain ⟨j, hj⟩ : ∃ j, (if i0 ≠ j then pairMatches W i0 j else 0) ≠ 0 := by
      by_contra hc
      push_neg at hc
      exact h0 (Finset.sum_eq_zero fun j _ => hc j)
    have hpm : pairMatches W i0 j ≠ 0 := by
      by_cases hne : i0 ≠ j
      · simpa [hne] using hj
      · simp [hne] at hj
    have hcases : 0 < W i0 j ∨ 0 < W j i0 := by
      rcases Nat.eq_zero_or_pos (W i0 j) with h1 | h1
      · refine Or.inr ?_
        rcases Nat.eq_zero_or_pos (W j i0) with h2 | h2
        · exact absurd (by simp [pairMatches, h1, h2]) hpm
        · exact h2
      · exact Or.inl h1
    rcases hcases with h1 | h1
    · refine ⟨i0, newStrengths_pos W s hgood i0 (Or.inl ?_)⟩
      exact lt_of_lt_of_le h1 (Finset.single_le_sum (fun k _ => Nat.zero_le _)
        (Finset.mem_univ j))
    · refine ⟨j, newStrengths_pos W s hgood j (Or.inl ?_)⟩
      exact lt_of_lt_of_le h1 (Finset.single_le_sum (fun k _ => Nat.zero_le _)
        (Finset.mem_univ i0))

lemma sum_newStrengths_pos (W : Fin n → Fin n → ℕ) (s : Fin n → ℚ)
    (hn : 0 < n) (hgood : Good W s) : 0 < ∑ i, newStrengths W s i := by
  obtain ⟨i, hi⟩ := exists_newStrengths_pos W s hn hgood
  exact Finset.sum_pos' (fun j _ => newStrengths_nonneg W s hgood.1 j)
    ⟨i, Finset.mem_univ i, hi⟩

lemma sweep_good (W : Fin n → Fin n → ℕ) (s : Fin n → ℚ)
    (hn : 0 < n) (hgood : Good W s) : Good W (sweep W s) := by
  have hσ : 0 < ∑ i, newStrengths W s i := sum_newStrengths_pos W s hn hgood
  refine ⟨fun i => ?_, ?_, fun i hi => ?_⟩
  · exact div_nonneg (newStrengths_nonneg W s hgood.1 i) (le_of_lt hσ)
  · unfold sweep normalize
    rw [← Finset.sum_div]
    exact div_self (ne_of_gt hσ)
  · exact div_pos (newStrengths_pos W s hgood i hi) hσ

lemma fitLoop_good (W : Fin n → Fin n → ℕ) (thr : ℚ) (hn : 0 < n) :
    ∀ (k : ℕ) (s : Fin n → ℚ), Good W s → Good W (fitLoop W thr k s) := by
  intro k
  induction k with
  | zero => intro s hs; exact hs
  | succ k ih =>
    intro s hs
    rw [fitLoop]
    split
    · exact hs
    · exact ih (sweep W s) (sweep_good W s hn hs)

lemma good_init (W : Fin n → Fin n → ℕ) (hn : 0 < n) :
    Good W (initStrengths n) := by
  have hc : ((n : ℚ)) ≠ 0 := Nat.cast_ne_zero.mpr (Nat.pos_iff_ne_zero.mp hn)
  have hpos : 0 < (1 : ℚ) / n := by
    apply div_pos one_pos
    exact_mod_cast hn
  refine ⟨fun i => le_of_lt hpos, ?_, fun i _ => hpos⟩
  unfold initStrengths
  rw [Finset.sum_const, Finset.card_univ, Fintype.card_fin, nsmul_eq_mul]
  field_simp

/-- Unfolding equation for one loop iteration. -/
lemma fitLoop_succ (W : Fin n → Fin n → ℕ) (thr : ℚ) (k : ℕ) (s : Fin n → ℚ) :
    fitLoop W thr (k + 1) s =
      if Converged thr (sweep W s) s then s else fitLoop W thr k (sweep W s) :=
  rfl

end BradleyTerry

/-- C2 (amended): for every non-empty win matrix, after `fit` the strengths
sum to exactly 1 (in exact arithmetic) and are all non-negative, and every
model with at least one *win* — or with no comparisons at all — has strictly
positive strength.  (A model with matches but zero wins can end at exactly
zero, refuting the original claim; see the counterexample.) -/
theorem fit_normalization {n : ℕ} (W : Fin n → Fin n → ℕ)
    (maxIter : ℕ) (thr : ℚ) (hn : 0 < n) :
    (∑ i, BradleyTerry.fit maxIter thr W i = 1) ∧
    (∀ i, 0 ≤ BradleyTerry.fit maxIter thr W i) ∧
    (∀ i, (0 < BradleyTerry.rowWins W i ∨ BradleyTerry.totalComparisons W i = 0) →
      0 < BradleyTerry.fit maxIter thr W i) := by
  have hgood := BradleyTerry.fitLoop_good W thr hn maxIter (BradleyTerry.initStrengths n)
    (BradleyTerry.good_init W hn)
  exact ⟨hgood.2.1, hgood.1, hgood.2.2⟩

/-- Witness for C2 (amended) at a concrete input: the one-model zero matrix. -/
theorem fit_normalization_witness :
    0 < 1 ∧
    ((∑ i, BradleyTerry.fit BradleyTerry.defaultMaxIterations
        BradleyTerry.defaultThreshold (fun _ _ => 0 : Fin 1 → Fin 1 → ℕ) i = 1) ∧
    (∀ i, 0 ≤ BradleyTerry.fit BradleyTerry.defaultMaxIterations
        BradleyTerry.defaultThreshold (fun _ _ => 0 : Fin 1 → Fin 1 → ℕ) i) ∧
    (∀ i, (0 < BradleyTerry.rowWins (fun _ _ => 0 : Fin 1 → Fin 1 → ℕ) i ∨
        BradleyTerry.totalComparisons (fun _ _ => 0 : Fin 1 → Fin 1 → ℕ) i = 0) →
      0 < BradleyTerry.fit BradleyTerry.defaultMaxIterations
        BradleyTerry.defaultThreshold (fun _ _ => 0 : Fin 1 → Fin 1 → ℕ) i)) :=
  ⟨Nat.one_pos,
   fit_normalization (fun _ _ => 0) BradleyTerry.defaultMaxIterations
     BradleyTerry.defaultThreshold Nat.one_pos⟩

/-! ### Concrete Bradley-Terry runs -/

namespace BradleyTerry

lemma sweep_W2_init : sweep W2 (initStrengths 2) = ![1, 0] := by
  funext i
  fin_cases i <;>
    simp +decide [sweep, normalize, newStrengths, denomSum, rowWins,
      totalComparisons, pairMatches, W2, initStrengths, Fin.sum_univ_succ,
      Finset.filter_eq']

lemma sweep_W2_fix : sweep W2 ![1, 0] = ![1, 0] := by
  funext i
  fin_cases i <;>
    simp +decide [sweep, normalize, newStrengths, denomSum, rowWins,
      totalComparisons, pairMatches, W2, Fin.sum_univ_succ]

lemma not_conv_W2_init :
    ¬ Converged defaultThreshold (sweep W2 (initStrengths 2)) (initStrengths 2) := by
  rw [sweep_W2_init]
  intro h
  have h0 := h 0
  norm_num [initStrengths, defaultThreshold, abs_lt] at h0

lemma conv_W2_fix : Converged defaultThreshold (sweep W2 ![1, 0]) ![1, 0] := by
  rw [sweep_W2_fix]
  intro i
  norm_num [defaultThreshold]

lemma fit_W2 : fit defaultMaxIterations defaultThreshold W2 = ![1, 0] := by
  unfold fit defaultMaxIterations
  rw [show (100 : ℕ) = 99 + 1 from rfl, fitLoop_succ,
    if_neg not_conv_W2_init, sweep_W2_init,
    show (99 : ℕ) = 98 + 1 from rfl, fitLoop_succ, if_pos conv_W2_fix]

lemma sweep_W3_init : sweep W3 (initStrengths 3) = ![6/7, 0, 1/7] := by
  funext i
  fin_cases i <;>
    simp +decide [sweep, normalize, newStrengths, denomSum, rowWins,
      totalComparisons, pairMatches, W3, initStrengths, Fin.sum_univ_succ,
      Finset.filter_eq'] <;>
    norm_num

lemma sweep_W3_fix : sweep W3 ![6/7, 0, 1/7] = ![6/7, 0, 1/7] := by
  funext i
  fin_cases i <;>
    simp +decide [sweep, normalize, newStrengths, denomSum, rowWins,
      totalComparisons, pairMatches, W3, Fin.sum_univ_succ,
      Finset.filter_eq'] <;>
    norm_num

lemma not_conv_W3_init :
    ¬ Converged defaultThreshold (sweep W3 (initStrengths 3)) (initStrengths 3) := by
  rw [sweep_W3_init]
  intro h
  have h0 := h 0
  norm_num [initStrengths, defaultThreshold, abs_lt] at h0

lemma conv_W3_fix :
    Converged defaultThreshold (sweep W3 ![6/7, 0, 1/7]) ![6/7, 0, 1/7] := by
  rw [sweep_W3_fix]
  intro i
  norm_num [defaultThreshold]

lemma fit_W3 : fit defaultMaxIterations defaultThreshold W3 = ![6/7, 0, 1/7] := by
  unfold fit defaultMaxIterations
  rw [show (100 : ℕ) = 99 + 1 from rfl, fitLoop_succ,
    if_neg not_conv_W3_init, sweep_W3_init,
    show (99 : ℕ) = 98 + 1 from rfl, fitLoop_succ, if_pos conv_W3_fix]

end BradleyTerry

/-- C2 counterexample: on the win matrix `[[0, 1], [0, 0]]` the second model
has one match (row-plus-column total 1) yet its fitted strength is exactly
`0`, not strictly positive — refuting the positivity half of the claim. -/
theorem fit_zero_strength_counterexample :
    0 < BradleyTerry.totalComparisons BradleyTerry.W2 1 ∧
    BradleyTerry.fit BradleyTerry.defaultMaxIterations
      BradleyTerry.defaultThreshold BradleyTerry.W2 1 = 0 := by
  constructor
  · simp +decide [BradleyTerry.totalComparisons, BradleyTerry.pairMatches,
      BradleyTerry.W2, Fin.sum_univ_succ]
  · rw [BradleyTerry.fit_W2]
    rfl

/-- C6 (amended): a model with zero total comparisons is left unchanged by
each sweep's per-model update step; only the global renormalization rescales
it, so when every model has zero comparisons the fitted strengths equal the
initial values exactly.  (With other models present the renormalization can
move the isolated model's strength; see the counterexample.) -/
theorem fit_isolated_amended {n : ℕ} (W : Fin n → Fin n → ℕ)
    (maxIter : ℕ) (thr : ℚ) (hn : 0 < n) (hthr : 0 < thr)
    (hIter : 0 < maxIter) (hall : ∀ i, BradleyTerry.totalComparisons W i = 0) :
    (∀ (s : Fin n → ℚ) i, BradleyTerry.newStrengths W s i = s i) ∧
    (∀ i, BradleyTerry.fit maxIter thr W i = BradleyTerry.initStrengths n i) := by
  have h1 : ∀ (s : Fin n → ℚ) i, BradleyTerry.newStrengths W s i = s i := by
    intro s i
    unfold BradleyTerry.newStrengths
    rw [if_pos (hall i)]
  refine ⟨h1, ?_⟩
  have hsin : ∑ j, BradleyTerry.initStrengths n j = 1 :=
    (BradleyTerry.good_init W hn).2.1
  have hsweep : BradleyTerry.sweep W (BradleyTerry.initStrengths n) =
      BradleyTerry.initStrengths n := by
    funext i
    unfold BradleyTerry.sweep BradleyTerry.normalize
    rw [funext fun j => h1 (BradleyTerry.initStrengths n) j, hsin, div_one]
  obtain ⟨k, rfl⟩ : ∃ k, maxIter = k + 1 :=
    ⟨maxIter - 1, (Nat.succ_pred_eq_of_pos hIter).symm⟩
  intro i
  unfold BradleyTerry.fit
  rw [BradleyTerry.fitLoop_succ, hsweep, if_pos]
  intro j
  simpa using hthr

/-- Witness for C6 (amended) at a concrete input: the two-model zero matrix
with the default iteration cap and threshold. -/
theorem fit_isolated_amended_witness :
    (0 < 2 ∧ 0 < BradleyTerry.defaultThreshold ∧
      0 < BradleyTerry.defaultMaxIterations ∧
      ∀ i, BradleyTerry.totalComparisons (fun _ _ => 0 : Fin 2 → Fin 2 → ℕ) i = 0) ∧
    ((∀ (s : Fin 2 → ℚ) i,
        BradleyTerry.newStrengths (fun _ _ => 0 : Fin 2 → Fin 2 → ℕ) s i = s i) ∧
      (∀ i, BradleyTerry.fit BradleyTerry.defaultMaxIterations
          BradleyTerry.defaultThreshold (fun _ _ => 0 : Fin 2 → Fin 2 → ℕ) i =
        BradleyTerry.initStrengths 2 i)) :=
  ⟨⟨by norm_num, by norm_num [BradleyTerry.defaultThreshold], by norm_num [BradleyTerry.defaultMaxIterations],
    fun i => by simp [BradleyTerry.totalComparisons, BradleyTerry.pairMatches]⟩,
   fit_isolated_amended (fun _ _ => 0) BradleyTerry.defaultMaxIterations
     BradleyTerry.defaultThreshold (by norm_num)
     (by norm_num [BradleyTerry.defaultThreshold])
     (by norm_num [BradleyTerry.defaultMaxIterations])
     (fun i => by simp [BradleyTerry.totalComparisons, BradleyTerry.pairMatches])⟩

/-- C6 counterexample: on `[[0, 1, 0], [0, 0, 0], [0, 0, 0]]` the isolated
third model starts at `1/3` but the fit returns `1/7` for it — the global
renormalization of the first sweep rescaled it, so its fitted strength does
not equal its initial value. -/
theorem fit_isolated_changed_counterexample :
    BradleyTerry.totalComparisons BradleyTerry.W3 2 = 0 ∧
    BradleyTerry.initStrengths 3 2 = 1 / 3 ∧
    BradleyTerry.fit BradleyTerry.defaultMaxIterations
      BradleyTerry.defaultThreshold BradleyTerry.W3 2 = 1 / 7 ∧
    BradleyTerry.fit BradleyTerry.defaultMaxIterations
      BradleyTerry.defaultThreshold BradleyTerry.W3 2 ≠
      BradleyTerry.initStrengths 3 2 := by
  refine ⟨?_, ?_, ?_, ?_⟩
  · simp +decide [BradleyTerry.totalComparisons, BradleyTerry.pairMatches,
      BradleyTerry.W3, Fin.sum_univ_succ]
  · norm_num [BradleyTerry.initStrengths]
  · rw [BradleyTerry.fit_W3]
    norm_num
  · rw [BradleyTerry.fit_W3]
    norm_num [BradleyTerry.initStrengths]

/-! ### String-order lemmas -/

lemma charListLt_asymm : ∀ {x y : List Char},
    charListLt x y = true → charListLt y x = false := by
  intro x
  induction x with
  | nil =>
    intro y h
    cases y with
    | nil => simp [charListLt] at h
    | cons b bs => simp [charListLt]
  | cons a as ih =>
    intro y h
    cases y with
    | nil => simp [charListLt] at h
    | cons b bs =>
      unfold charListLt at h ⊢
      by_cases h1 : a.toNat < b.toNat
      · rw [if_neg (Nat.lt_asymm h1), if_pos h1]
      · rw [if_neg h1] at h
        by_cases h2 : b.toNat < a.toNat
        · rw [if_pos h2] at h
          exact absurd h (by simp)
        · rw [if_neg h2] at h
          rw [if_neg h2, if_neg h1]
          exact ih h

lemma charListLt_eq_of_both_false : ∀ {x y : List Char},
    charListLt x y = false → charListLt y x = false → x = y := by
  intro x
  induction x with
  | nil =>
    intro y h1 _
    cases y with
    | nil => rfl
    | cons b bs => simp [charListLt] at h1
  | cons a as ih =>
    intro y h1 h2
    cases y with
    | nil => simp [charListLt] at h2
    | cons b bs =>
      unfold charListLt at h1 h2
      by_cases hab : a.toNat < b.toNat
      · rw [if_pos hab] at h1
        exact absurd h1 (by simp)
      · by_cases hba : b.toNat < a.toNat
        · rw [if_pos hba] at h2
          exact absurd h2 (by simp)
        · rw [if_neg hab, if_neg hba] at h1
          rw [if_neg hba, if_neg hab] at h2
          have hn : a.toNat = b.toNat := by omega
          have hchar : a = b := Char.ext (UInt32.ext hn)
          rw [hchar, ih h1 h2]

lemma strLt_eq_of_both_false {a b : String}
    (h1 : strLt a b = false) (h2 : strLt b a = false) : a = b :=
  String.ext (charListLt_eq_of_both_false h1 h2)

lemma sortPair_comm (a b : String) : sortPair a b = sortPair b a := by
  unfold sortPair
  by_cases h1 : strLt b a
  · rw [if_pos h1, if_neg (by simpa using charListLt_asymm h1)]
  · rw [if_neg h1]
    by_cases h2 : strLt a b
    · rw [if_pos h2]
    · have hEq : a = b :=
        @strLt_eq_of_both_false a b (by simpa using h2) (by simpa using h1)
      rw [if_neg h2, hEq]

/-- Loading is symmetric in its two arguments: both orders read the file of
the sorted pair. -/
lemma load_comparison_result_comm (store : Store) (a b : String) :
    load_comparison_result store a b = load_comparison_result store b a :=
  congrArg store (sortPair_comm a b)

/-! ### Direct-comparison lemmas -/

namespace DirectComparison

lemma dcStep_missing_mono (store : Store) (st : DCState) (p : String × String)
    (h : st.missing_comparisons ≠ []) :
    (dcStep store st p).missing_comparisons ≠ [] := by
  by_cases hp : p.1 = p.2
  · simpa [dcStep, hp] using h
  · cases hl : load_comparison_result store p.1 p.2 with
    | none => simp [dcStep, hp, hl]
    | some r => simpa [dcStep, hp, hl] using h

lemma foldl_missing_mono (store : Store) (l : List (String × String)) :
    ∀ st : DCState, st.missing_comparisons ≠ [] →
      (l.foldl (dcStep store) st).missing_comparisons ≠ [] := by
  induction l with
  | nil => intro st h; exact h
  | cons q t ih =>
    intro st h
    exact ih (dcStep store st q) (dcStep_missing_mono store st q h)

lemma foldl_missing_of_load_none (store : Store) (l : List (String × String))
    (p : String × String) (hne : p.1 ≠ p.2)
    (hnone : load_comparison_result store p.1 p.2 = none) :
    ∀ st : DCState, p ∈ l →
      (l.foldl (dcStep store) st).missing_comparisons ≠ [] := by
  induction l with
  | nil => intro st h; cases h
  | cons q t ih =>
    intro st hp
    rcases List.mem_cons.mp hp with h | h
    · subst h
      rw [List.foldl_cons]
      apply foldl_missing_mono
      have hstep : (dcStep store st p).missing_comparisons =
          st.missing_comparisons ++ [p] := by
        simp [dcStep, hne, hnone]
      rw [hstep]
      simp
    · exact ih (dcStep store st q) h

lemma dcStep_counts_frame (store : Store) (st : DCState) (q : String × String)
    (a b : String) (h1 : ¬(q.1 = a ∧ q.2 = b)) (h2 : ¬(q.1 = b ∧ q.2 = a)) :
    (dcStep store st q).match_counts a b = st.match_counts a b := by
  by_cases hp : q.1 = q.2
  · simp [dcStep, hp]
  · cases hl : load_comparison_result store q.1 q.2 with
    | none => simp [dcStep, hp, hl]
    | some r =>
      have hmc : (dcStep store st q).match_counts =
          setEntry (setEntry st.match_counts q.1 q.2
              (r.overall_wins_a + r.overall_wins_b + r.overall_ties)) q.2 q.1
            (r.overall_wins_a + r.overall_wins_b + r.overall_ties) := by
        simp [dcStep, hp, hl]
      rw [hmc]
      unfold setEntry
      rw [if_neg (fun hc => h2 ⟨hc.2.symm, hc.1.symm⟩),
        if_neg (fun hc => h1 ⟨hc.1.symm, hc.2.symm⟩)]

lemma dcStep_counts_write (store : Store) (st : DCState) (a b : String)
    (r : ComparisonResult) (hab : a ≠ b)
    (hr : load_comparison_result store a b = some r)
    (q : String × String) (hq : q = (a, b) ∨ q = (b, a)) :
    (dcStep store st q).match_counts a b = r.overall_total := by
  rcases hq with hq | hq <;> subst hq
  · have hmc : (dcStep store st (a, b)).match_counts =
        setEntry (setEntry st.match_counts a b
            (r.overall_wins_a + r.overall_wins_b + r.overall_ties)) b a
          (r.overall_wins_a + r.overall_wins_b + r.overall_ties) := by
      simp [dcStep, hab, hr]
    rw [hmc]
    unfold setEntry
    rw [if_neg (fun hc => hab hc.1), if_pos ⟨rfl, rfl⟩]
    rfl
  · have hr2 : load_comparison_result store b a = some r :=
      (load_comparison_result_comm store b a).trans hr
    have hmc : (dcStep store st (b, a)).match_counts =
        setEntry (setEntry st.match_counts b a
            (r.overall_wins_a + r.overall_wins_b + r.overall_ties)) a b
          (r.overall_wins_a + r.overall_wins_b + r.overall_ties) := by
      simp [dcStep, Ne.symm hab, hr2]
    rw [hmc]
    unfold setEntry
    rw [if_pos ⟨rfl, rfl⟩]
    rfl

lemma foldl_counts_value (store : Store) (l : List (String × String))
    (a b : String) (r : ComparisonResult) (hab : a ≠ b)
    (hr : load_comparison_result store a b = some r) :
    ∀ st : DCState,
      (((a, b) ∈ l ∨ (b, a) ∈ l) ∨ st.match_counts a b = r.overall_total) →
      (l.foldl (dcStep store) st).match_counts a b = r.overall_total := by
  induction l with
  | nil =>
    intro st hin
    rcases hin with hin | hin
    · rcases hin with h | h <;> cases h
    · exact hin
  | cons q t ih =>
    intro st hin
    by_cases hq : q = (a, b) ∨ q = (b, a)
    · exact ih (dcStep store st q)
        (Or.inr (dcStep_counts_write store st a b r hab hr q hq))
    · push_neg at hq
      have hframe : (dcStep store st q).match_counts a b = st.match_counts a b := by
        refine dcStep_counts_frame store st q a b ?_ ?_
        · intro hc
          exact hq.1 (Prod.ext hc.1 hc.2)
        · intro hc
          exact hq.2 (Prod.ext hc.1 hc.2)
      rcases hin with hin | hin
      · rcases hin with h | h
        · rcases List.mem_cons.mp h with h | h
          · exact absurd h.symm hq.1
          · exact ih (dcStep store st q) (Or.inl (Or.inl h))
        · rcases List.mem_cons.mp h with h | h
          · exact absurd h.symm hq.2
          · exact ih (dcStep store st q) (Or.inl (Or.inr h))
      · exact ih (dcStep store st q) (Or.inr (hframe.trans hin))

lemma mem_orderedPairs {models : List String} {a b : String}
    (ha : a ∈ models) (hb : b ∈ models) : (a, b) ∈ orderedPairs models := by
  unfold orderedPairs
  exact List.mem_flatMap.mpr ⟨a, ha, List.mem_map.mpr ⟨b, hb, rfl⟩⟩

end DirectComparison

/-- C3 (amended): `compute_rankings` returns `False` iff
`missing_comparisons` is non-empty; and provided every result stored in the
archive records at least one comparison, a `True` return implies every
off-diagonal probability entry for listed models is non-null.  (Without the
positivity proviso a stored zero-comparison result makes the gate pass while
leaving a null entry; see the counterexample.) -/
theorem compute_rankings_completeness_gate (store : Store)
    (models : List String)
    (hstore : ∀ p r, store p = some r → 0 < r.overall_total) :
    ((DirectComparison.compute_rankings store models).result = false ↔
      (DirectComparison.compute_rankings store models).missing_comparisons ≠ []) ∧
    ((DirectComparison.compute_rankings store models).result = true →
      ∀ a b, a ∈ models → b ∈ models → a ≠ b →
        (DirectComparison.compute_rankings store models).probability_matrix a b ≠
          none) := by
  constructor
  · unfold DirectComparison.compute_rankings
    by_cases h : (DirectComparison.dcLoad store models).missing_comparisons ≠ []
    · rw [if_pos h]
      simpa using h
    · rw [if_neg h]
      simpa using h
  · intro htrue a b ha hb hab
    have hmiss : ¬ (DirectComparison.dcLoad store models).missing_comparisons ≠ [] := by
      intro h
      rw [DirectComparison.compute_rankings, if_pos h] at htrue
      exact absurd htrue (by simp)
    rw [DirectComparison.compute_rankings, if_neg hmiss]
    obtain ⟨r, hr⟩ : ∃ r, load_comparison_result store a b = some r := by
      cases hl : load_comparison_result store a b with
      | none =>
        exact absurd (DirectComparison.foldl_missing_of_load_none store
          (DirectComparison.orderedPairs models) (a, b) hab hl
          DirectComparison.initDCState
          (DirectComparison.mem_orderedPairs ha hb)) hmiss
      | some r => exact ⟨r, rfl⟩
    have hpos : 0 < r.overall_total := hstore _ r hr
    have hcounts : (DirectComparison.dcLoad store models).match_counts a b =
        r.overall_total :=
      DirectComparison.foldl_counts_value store (DirectComparison.orderedPairs models)
        a b r hab hr DirectComparison.initDCState
        (Or.inl (Or.inl (DirectComparison.mem_orderedPairs ha hb)))
    show DirectComparison.probEntry (DirectComparison.dcLoad store models) a b ≠ none
    unfold DirectComparison.probEntry
    rw [if_neg hab]
    rw [hcounts, if_pos hpos]
    simp

/-- Witness for C3 (amended) at a concrete input: a two-model archive whose
single stored result has ten comparisons. -/
theorem compute_rankings_completeness_gate_witness :
    ((DirectComparison.compute_rankings DirectComparison.smallStore
        ["A", "B"]).result = false ↔
      (DirectComparison.compute_rankings DirectComparison.smallStore
        ["A", "B"]).missing_comparisons ≠ []) ∧
    ((DirectComparison.compute_rankings DirectComparison.smallStore
        ["A", "B"]).result = true →
      ∀ a b, a ∈ ["A", "B"] → b ∈ ["A", "B"] → a ≠ b →
        (DirectComparison.compute_rankings DirectComparison.smallStore
          ["A", "B"]).probability_matrix a b ≠ none) :=
  compute_rankings_completeness_gate DirectComparison.smallStore ["A", "B"]
    (fun p r h => by
      unfold DirectComparison.smallStore at h
      split at h
      · cases h
        decide
      · cases h)

/-- C3 counterexample: with a stored result recording zero comparisons for
the only pair, `compute_rankings(["A", "B"])` returns `True` yet the
off-diagonal probability entry for `("A", "B")` is null. -/
theorem compute_rankings_null_entry_counterexample :
    (DirectComparison.compute_rankings DirectComparison.zeroTotalStore
      ["A", "B"]).result = true ∧
    "A" ∈ ["A", "B"] ∧ "B" ∈ ["A", "B"] ∧ "A" ≠ "B" ∧
    (DirectComparison.compute_rankings DirectComparison.zeroTotalStore
      ["A", "B"]).probability_matrix "A" "B" = none := by
  decide

/-- C7 counterexample: in the scenario `A`-vs-`B` = 7-3-0, `B`-vs-`C` =
6-2-2 and no `A`-vs-`C` outcome, `missing_comparisons` is not `[("A", "C")]`
— the missing pair is recorded once per orientation. -/
theorem scenario_missing_once_counterexample :
    (DirectComparison.compute_rankings DirectComparison.scenarioStore
      ["A", "B", "C"]).missing_comparisons ≠ [("A", "C")] := by
  decide

/-- C7 (amended): in the scenario `A`-vs-`B` = 7-3-0, `B`-vs-`C` = 6-2-2 and
no `A`-vs-`C` outcome, `compute_rankings(["A", "B", "C"])` returns `False`
and `missing_comparisons` equals `[("A", "C"), ("C", "A")]`: the missing
unordered pair is recorded twice, once for each orientation visited by the
double loop. -/
theorem scenario_missing_both_orientations :
    (DirectComparison.compute_rankings DirectComparison.scenarioStore
      ["A", "B", "C"]).result = false ∧
    (DirectComparison.compute_rankings DirectComparison.scenarioStore
      ["A", "B", "C"]).missing_comparisons = [("A", "C"), ("C", "A")] := by
  decide

/-! ### Dict and focus-ranking lemmas -/

lemma dlookup_dinsert {κ α : Type} [DecidableEq κ]
    (d : List (κ × α)) (k k' : κ) (v : α) :
    dlookup (dinsert d k v) k' = if k' = k then some v else dlookup d k' := by
  induction d with
  | nil =>
    by_cases h : k' = k
    · simp [dinsert, dlookup, h]
    · simp [dinsert, dlookup, h, Ne.symm h]
  | cons e t ih =>
    by_cases he : e.1 = k
    · by_cases h : k' = k
      · subst h
        simp [dinsert, dlookup, he]
      · simp [dinsert, dlookup, he, h, Ne.symm h]
    · by_cases h2 : e.1 = k'
      · have hk : ¬ (k' = k) := fun hc => he (h2.trans hc)
        simp [dinsert, dlookup, he, h2, hk]
      · simp [dinsert, dlookup, he, h2, ih]

namespace FocusRank

lemma directStep_focus_none (cmp : List ((String × String) × ComparisonResult))
    (focus : String) (acc : List (String × FloatVal)) (m : String)
    (h : dlookup acc focus = none) :
    dlookup (directStep cmp focus acc m) focus = none := by
  unfold directStep
  by_cases hm : m = focus
  · rw [if_pos hm]
    exact h
  · rw [if_neg hm]
    have hne : ¬ (focus = m) := fun hc => hm hc.symm
    split
    · exact h
    · split
      · rw [dlookup_dinsert, if_neg hne]
        exact h
      · rw [dlookup_dinsert, if_neg hne]
        exact h

lemma direct_from_focus_none (models : List String)
    (cmp : List ((String × String) × ComparisonResult)) (focus : String) :
    dlookup (direct_ratios_from models cmp focus) focus = none := by
  unfold direct_ratios_from
  have hgen : ∀ (l : List String) (acc : List (String × FloatVal)),
      dlookup acc focus = none →
      dlookup (l.foldl (directStep cmp focus) acc) focus = none := by
    intro l
    induction l with
    | nil => intro acc h; exact h
    | cons m t ih =>
      intro acc h
      exact ih (directStep cmp focus acc m) (directStep_focus_none cmp focus acc m h)
  exact hgen models [] rfl

lemma directStep_key (cmp : List ((String × String) × ComparisonResult))
    (focus : String) (acc : List (String × FloatVal)) (m M : String)
    (h : dlookup (directStep cmp focus acc m) M ≠ none) :
    dlookup acc M ≠ none ∨ dlookup cmp (sortPair focus M) ≠ none := by
  unfold directStep at h
  by_cases hm : m = focus
  · rw [if_pos hm] at h
    exact Or.inl h
  · rw [if_neg hm] at h
    split at h
    · exact Or.inl h
    · next r hl =>
      by_cases hM : M = m
      · subst hM
        right
        rw [hl]
        simp
      · left
        split at h <;> rw [dlookup_dinsert, if_neg hM] at h <;> exact h

lemma direct_from_key (models : List String)
    (cmp : List ((String × String) × ComparisonResult)) (focus M : String)
    (h : dlookup (direct_ratios_from models cmp focus) M ≠ none) :
    dlookup cmp (sortPair focus M) ≠ none := by
  unfold direct_ratios_from at h
  have hgen : ∀ (l : List String) (acc : List (String × FloatVal)),
      dlookup (l.foldl (directStep cmp focus) acc) M ≠ none →
      dlookup acc M ≠ none ∨ dlookup cmp (sortPair focus M) ≠ none := by
    intro l
    induction l with
    | nil => intro acc h2; exact Or.inl h2
    | cons m t ih =>
      intro acc h2
      rcases ih (directStep cmp focus acc m) h2 with h3 | h3
      · exact directStep_key cmp focus acc m M h3
      · exact Or.inr h3
  rcases hgen models [] h with h2 | h2
  · exact absurd rfl h2
  · exact h2

lemma loadEntry_models (st : FocusState) (a b : String)
    (res : Option ComparisonResult) :
    (loadEntry st ⟨a, b, res⟩).models =
      addModel (addModel st.models a) b := by
  cases res <;> rfl

lemma loadEntry_comparisons_none (st : FocusState) (a b : String) :
    (loadEntry st ⟨a, b, none⟩).comparisons = st.comparisons := rfl

lemma loadEntry_comparisons_some (st : FocusState) (a b : String)
    (r : ComparisonResult) :
    (loadEntry st ⟨a, b, some r⟩).comparisons =
      dinsert st.comparisons (sortPair a b) r := rfl

lemma mem_addModel_self (l : List String) (m : String) : m ∈ addModel l m := by
  unfold addModel
  split
  · assumption
  · simp

lemma mem_addModel_of_mem (l : List String) (m : String) {x : String}
    (h : x ∈ l) : x ∈ addModel l m := by
  unfold addModel
  split
  · exact h
  · simp [h]

lemma sortPair_cases (a b : String) :
    sortPair a b = (a, b) ∨ sortPair a b = (b, a) := by
  unfold sortPair
  split
  · exact Or.inr rfl
  · exact Or.inl rfl

lemma loadAll_key_mem_aux (entries : List FocusEntry) :
    ∀ st : FocusState,
      (∀ k, dlookup st.comparisons k ≠ none →
        k.1 ∈ st.models ∧ k.2 ∈ st.models) →
      ∀ k, dlookup (entries.foldl loadEntry st).comparisons k ≠ none →
        k.1 ∈ (entries.foldl loadEntry st).models ∧
        k.2 ∈ (entries.foldl loadEntry st).models := by
  induction entries with
  | nil => intro st h; exact h
  | cons e t ih =>
    intro st h
    rw [List.foldl_cons]
    apply ih
    intro k hk
    obtain ⟨a, b, res⟩ := e
    rw [loadEntry_models]
    cases res with
    | none =>
      rw [loadEntry_comparisons_none] at hk
      obtain ⟨h1, h2⟩ := h k hk
      exact ⟨mem_addModel_of_mem _ _ (mem_addModel_of_mem _ _ h1),
        mem_addModel_of_mem _ _ (mem_addModel_of_mem _ _ h2)⟩
    | some r =>
      rw [loadEntry_comparisons_some, dlookup_dinsert] at hk
      by_cases hkey : k = sortPair a b
      · subst hkey
        have hma : a ∈ addModel (addModel st.models a) b :=
          mem_addModel_of_mem _ _ (mem_addModel_self _ _)
        have hmb : b ∈ addModel (addModel st.models a) b := mem_addModel_self _ _
        rcases sortPair_cases a b with hc | hc <;> rw [hc] <;>
          exact ⟨by assumption, by assumption⟩
      · rw [if_neg hkey] at hk
        obtain ⟨h1, h2⟩ := h k hk
        exact ⟨mem_addModel_of_mem _ _ (mem_addModel_of_mem _ _ h1),
          mem_addModel_of_mem _ _ (mem_addModel_of_mem _ _ h2)⟩

lemma loadAll_key_mem (entries : List FocusEntry) (k : String × String)
    (h : dlookup (loadAll entries).comparisons k ≠ none) :
    k.1 ∈ (loadAll entries).models ∧ k.2 ∈ (loadAll entries).models :=
  loadAll_key_mem_aux entries ⟨[], [], []⟩ (fun _ hk => absurd rfl hk) k h

lemma mergeStep_preserves (direct acc : List (String × FloatVal))
    (mr : String × ℚ) (M : String) (rv : FloatVal)
    (h : dlookup direct M = some rv) (hacc : dlookup acc M = some rv) :
    dlookup (mergeStep direct acc mr) M = some rv := by
  unfold mergeStep
  split
  · next hnone =>
    rw [dlookup_dinsert, if_neg]
    · exact hacc
    · intro hM
      rw [hM] at h
      rw [h] at hnone
      cases hnone
  · exact hacc

lemma merge_foldl_preserves (direct : List (String × FloatVal))
    (l : List (String × ℚ)) :
    ∀ (acc : List (String × FloatVal)) (M : String) (rv : FloatVal),
      dlookup direct M = some rv → dlookup acc M = some rv →
      dlookup (l.foldl (mergeStep direct) acc) M = some rv := by
  induction l with
  | nil => intro acc M rv _ hacc; exact hacc
  | cons mr t ih =>
    intro acc M rv h hacc
    exact ih (mergeStep direct acc mr) M rv h
      (mergeStep_preserves direct acc mr M rv h hacc)

end FocusRank

/-- C4: for every corpus of comparison files, every focus model, every
`max_depth` and every model `M` that has a direct win-ratio against the
focus model, the value returned for `M` by `compute_rankings` equals the
direct ratio — transitive paths (of any length) never override it. -/
theorem focus_direct_priority (entries : List FocusRank.FocusEntry)
    (focus : String) (max_depth : ℕ) (M : String) (rv : FloatVal)
    (hdirect : dlookup (FocusRank.direct_ratios (FocusRank.loadAll entries)
      focus) M = some rv) :
    dlookup (FocusRank.compute_rankings entries focus max_depth) M = some rv := by
  have hMf : M ≠ focus := by
    intro h
    rw [h, FocusRank.direct_ratios,
      FocusRank.direct_from_focus_none] at hdirect
    cases hdirect
  have hkey : dlookup (FocusRank.loadAll entries).comparisons
      (sortPair focus M) ≠ none := by
    apply FocusRank.direct_from_key
      (FocusRank.loadAll entries).models (FocusRank.loadAll entries).comparisons
      focus M
    rw [← FocusRank.direct_ratios]
    rw [hdirect]
    simp
  have hfm : focus ∈ (FocusRank.loadAll entries).models := by
    have hmem := FocusRank.loadAll_key_mem entries (sortPair focus M) hkey
    rcases FocusRank.sortPair_cases focus M with hc | hc <;> rw [hc] at hmem
    · exact hmem.1
    · exact hmem.2
  unfold FocusRank.compute_rankings FocusRank.assembleRatios
  rw [if_neg (not_not_intro hfm)]
  rw [dlookup_dinsert, if_neg hMf]
  exact FocusRank.merge_foldl_preserves _ _ _ M rv hdirect hdirect

namespace FocusRank

lemma loadAll_scenario_models :
    (loadAll scenarioEntries).models = ["A", "B", "C"] := by
  decide

lemma loadAll_scenario_comparisons :
    (loadAll scenarioEntries).comparisons =
      [(("A", "B"), ⟨"A", "B", 7, 3, 0⟩), (("B", "C"), ⟨"B", "C", 6, 2, 2⟩)] := by
  decide

lemma scenario_direct_B :
    dlookup (direct_ratios (loadAll scenarioEntries) "A") "B" =
      some (FloatVal.val (3 / 7)) := by
  rw [direct_ratios, loadAll_scenario_models, loadAll_scenario_comparisons]
  norm_num [direct_ratios_from, directStep, focusOtherWins, dlookup, dinsert,
    show sortPair "A" "B" = ("A", "B") from by decide,
    show sortPair "A" "C" = ("A", "C") from by decide]

end FocusRank

/-- Witness for C4 at a concrete input: in the scenario `A`-vs-`B` = 7-3-0,
`B`-vs-`C` = 6-2-2, model `B` has the direct ratio `3/7` against focus `A`,
and `compute_rankings` with `max_depth = 2` (where a transitive path to `B`
through the graph also exists) still returns `3/7` for `B`. -/
theorem focus_direct_priority_witness :
    dlookup (FocusRank.direct_ratios (FocusRank.loadAll
      FocusRank.scenarioEntries) "A") "B" = some (FloatVal.val (3 / 7)) ∧
    dlookup (FocusRank.compute_rankings FocusRank.scenarioEntries "A" 2) "B" =
      some (FloatVal.val (3 / 7)) :=
  ⟨FocusRank.scenario_direct_B,
   focus_direct_priority FocusRank.scenarioEntries "A" 2 "B"
     (FloatVal.val (3 / 7)) FocusRank.scenario_direct_B⟩

/-! ### Analyzer lemmas -/

namespace Analyzer

lemma mem_combinations {α : Type} :
    ∀ {l : List α} {p : α × α}, p ∈ combinations l → p.1 ∈ l ∧ p.2 ∈ l := by
  intro l
  induction l with
  | nil => intro p h; cases h
  | cons x t ih =>
    intro p h
    rw [combinations] at h
    rcases List.mem_append.mp h with h | h
    · obtain ⟨y, hy, rfl⟩ := List.mem_map.mp h
      exact ⟨List.mem_cons_self x t, List.mem_cons_of_mem x hy⟩
    · obtain ⟨h1, h2⟩ := ih h
      exact ⟨List.mem_cons_of_mem x h1, List.mem_cons_of_mem x h2⟩

lemma combinations_pairwise {α : Type} :
    ∀ {l : List α}, l.Nodup → (combinations l).Pairwise PairNe := by
  intro l
  induction l with
  | nil => intro _; exact List.Pairwise.nil
  | cons x t ih =>
    intro hl
    rw [List.nodup_cons] at hl
    obtain ⟨hx, ht⟩ := hl
    rw [combinations, List.pairwise_append]
    refine ⟨?_, ih ht, ?_⟩
    · rw [List.pairwise_map]
      refine List.Pairwise.imp_of_mem ?_ ht
      intro a b ha hb hab
      intro hcase
      rcases hcase with ⟨_, h2⟩ | ⟨h1, _⟩
      · exact hab h2
      · have hxb : x = b := h1
        exact hx (hxb ▸ hb)
    · intro p hp q hq
      obtain ⟨y, hy, rfl⟩ := List.mem_map.mp hp
      obtain ⟨hq1, hq2⟩ := mem_combinations hq
      intro hcase
      rcases hcase with ⟨h1, _⟩ | ⟨h1, _⟩
      · have hxq : x = q.1 := h1
        exact hx (hxq ▸ hq1)
      · have hxq : x = q.2 := h1
        exact hx (hxq ▸ hq2)

lemma distinctPair_symm {s t : Suggestion} (h : DistinctPair s t) :
    DistinctPair t s := by
  intro hcase
  apply h
  rcases hcase with ⟨h1, h2⟩ | ⟨h1, h2⟩
  · exact Or.inl ⟨h1.symm, h2.symm⟩
  · exact Or.inr ⟨h2.symm, h1.symm⟩

lemma addWithGuard_pairwise (acc : List Suggestion) (s : Suggestion)
    (h : acc.Pairwise DistinctPair) :
    (addWithGuard acc s).Pairwise DistinctPair := by
  unfold addWithGuard
  split
  · exact h
  · next hguard =>
    rw [List.pairwise_append]
    refine ⟨h, List.pairwise_singleton _ _, ?_⟩
    intro t ht u hu
    rw [List.mem_singleton] at hu
    subst hu
    unfold pairAlreadySuggested at hguard
    push_neg at hguard
    intro hcase
    rcases hcase with ⟨h1, h2⟩ | ⟨h1, h2⟩
    · exact hguard.1 t ht h1 h2
    · exact hguard.2 t ht h1 h2

lemma foldl_preserve {α β : Type} (P : α → Prop) (f : α → β → α)
    (h : ∀ a x, P a → P (f a x)) :
    ∀ (l : List β) (a : α), P a → P (l.foldl f a) := by
  intro l
  induction l with
  | nil => intro a ha; exact ha
  | cons x t ih => intro a ha; exact ih (f a x) (h a x ha)

lemma sortStrings_nodup {l : List String} (h : l.Nodup) :
    (sortStrings l).Nodup :=
  (List.perm_insertionSort strLe l).nodup_iff.mpr h

lemma suggestions1_pairwise (d : AnalyzerData) (max_suggestions : ℕ)
    (hmodels : d.models.Nodup) :
    (suggestions1 d max_suggestions).Pairwise DistinctPair := by
  unfold suggestions1
  rw [List.pairwise_map]
  have hpw : (combinations (sortStrings d.models)).Pairwise PairNe :=
    combinations_pairwise (sortStrings_nodup hmodels)
  have hsub : (get_missing_comparisons d).take max_suggestions <+:
      get_missing_comparisons d := List.take_prefix _ _
  have hpw2 : ((get_missing_comparisons d).take max_suggestions).Pairwise
      PairNe :=
    List.Pairwise.sublist (hsub.sublist.trans (List.filter_sublist _))
      hpw
  exact hpw2

lemma suggestions2_pairwise (d : AnalyzerData)
    (min_comparisons max_suggestions : ℕ) (hmodels : d.models.Nodup) :
    (suggestions2 d min_comparisons max_suggestions).Pairwise DistinctPair := by
  unfold suggestions2
  exact foldl_preserve _ _
    (fun acc x hacc => addWithGuard_pairwise acc _ hacc) _ _
    (suggestions1_pairwise d max_suggestions hmodels)

lemma suggestions3_pairwise (d : AnalyzerData) (min_comparisons : ℕ)
    (max_rating_diff : ℚ) (max_suggestions : ℕ) (hmodels : d.models.Nodup) :
    (suggestions3 d min_comparisons max_rating_diff
      max_suggestions).Pairwise DistinctPair := by
  unfold suggestions3
  cases helo : d.elo_ratings with
  | none => exact suggestions2_pairwise d min_comparisons max_suggestions hmodels
  | some rating =>
    exact foldl_preserve _ _
      (fun acc x hacc => addWithGuard_pairwise acc _ hacc) _ _
      (suggestions2_pairwise d min_comparisons max_suggestions hmodels)

lemma suggestions4_pairwise (d : AnalyzerData)
    (categoriesOf : String → List String)
    (min_comparisons min_per_category : ℕ) (max_rating_diff : ℚ)
    (max_suggestions : ℕ) (hmodels : d.models.Nodup) :
    (suggestions4 d categoriesOf min_comparisons min_per_category
      max_rating_diff max_suggestions).Pairwise DistinctPair := by
  unfold suggestions4
  refine foldl_preserve _ _ ?_ _ _
    (suggestions3_pairwise d min_comparisons max_rating_diff max_suggestions
      hmodels)
  intro acc cg hacc
  exact foldl_preserve _ _
    (fun acc2 x hacc2 => addWithGuard_pairwise acc2 _ hacc2) _ _ hacc

end Analyzer

/-- C5: for every analyzer corpus (with its models forming a set) and every
parameter choice on a promptset with a non-empty duplicate-free category
list, `generate_suggestions` returns a list in which no unordered model pair
appears twice, whose length is at most `max_suggestions`, and which is
ordered by ascending priority.  (`get_prompt_categories` with a promptset
argument is spec-modelled: the promptset-aware `prompts.py` is missing from
`src/`.  The source raises `ZeroDivisionError` on a promptset with no
categories, hence the non-emptiness hypothesis.) -/
theorem generate_suggestions_dedup_cap_order (d : Analyzer.AnalyzerData)
    (categoriesOf : String → List String)
    (min_comparisons min_per_category : ℕ) (max_rating_diff : ℚ)
    (max_suggestions : ℕ) (hmodels : d.models.Nodup)
    (_hcats : Analyzer.get_prompt_categories categoriesOf d.promptset ≠ [] ∧
      (Analyzer.get_prompt_categories categoriesOf d.promptset).Nodup) :
    (Analyzer.generate_suggestions d categoriesOf min_comparisons
      min_per_category max_rating_diff max_suggestions).Pairwise
      Analyzer.DistinctPair ∧
    (Analyzer.generate_suggestions d categoriesOf min_comparisons
      min_per_category max_rating_diff max_suggestions).length ≤
      max_suggestions ∧
    (Analyzer.generate_suggestions d categoriesOf min_comparisons
      min_per_category max_rating_diff max_suggestions).Pairwise
      Analyzer.priLe := by
  have hs4 := Analyzer.suggestions4_pairwise d categoriesOf min_comparisons
    min_per_category max_rating_diff max_suggestions hmodels
  refine ⟨?_, ?_, ?_⟩
  · unfold Analyzer.generate_suggestions
    apply List.Pairwise.sublist (List.take_sublist _ _)
    exact (List.Perm.pairwise_iff (fun h => Analyzer.distinctPair_symm h)
      (List.perm_insertionSort Analyzer.priLe _)).mpr hs4
  · unfold Analyzer.generate_suggestions
    exact List.length_take_le _ _
  · unfold Analyzer.generate_suggestions
    apply List.Pairwise.sublist (List.take_sublist _ _)
    exact List.sorted_insertionSort Analyzer.priLe _

/-- Witness for C5 at a concrete input: a two-model corpus with one recorded
pair, no ELO store and a single category. -/
theorem generate_suggestions_dedup_cap_order_witness :
    (Analyzer.witnessData.models.Nodup ∧
      Analyzer.get_prompt_categories Analyzer.witnessCategoriesOf
        Analyzer.witnessData.promptset ≠ [] ∧
      (Analyzer.get_prompt_categories Analyzer.witnessCategoriesOf
        Analyzer.witnessData.promptset).Nodup) ∧
    ((Analyzer.generate_suggestions Analyzer.witnessData
        Analyzer.witnessCategoriesOf 5 2 50 10).Pairwise
        Analyzer.DistinctPair ∧
      (Analyzer.generate_suggestions Analyzer.witnessData
        Analyzer.witnessCategoriesOf 5 2 50 10).length ≤ 10 ∧
      (Analyzer.generate_suggestions Analyzer.witnessData
        Analyzer.witnessCategoriesOf 5 2 50 10).Pairwise Analyzer.priLe) :=
  ⟨⟨by decide, by decide, by decide⟩,
   generate_suggestions_dedup_cap_order Analyzer.witnessData
     Analyzer.witnessCategoriesOf 5 2 50 10 (by decide)
     ⟨by decide, by decide⟩⟩

end RankLlms
